import Mathlib

/-!
Verification of the chunked parquet export / remote DuckDB read pipeline.

Shallow embedding of the relevant parts of `src/data_pull_mssql.py`
(function `saved_chunked_parquet_b2`) and `src/test_duckdb_read.py`
(class `B2DuckDBConnector`).  Pure computations (chunk sizing, chunk
boundaries, SQL text rewriting) are embedded as Lean functions; the
effectful export / download / close flows are embedded as explicit state
transitions over abstract stores, with Python exceptions modelled as
`Except` error values.
-/

namespace DataPlatform

/-- Message of a Python ZeroDivisionError. -/
def divisionByZeroMsg : String := "division by zero"

/-- Sample size used by the sizer: `sample_size = min(10000, df.height)`,
so the sample is the first `min(10000, row_count)` rows
(src/data_pull_mssql.py lines 51-52). -/
def sampleSize (height : ℕ) : ℕ := min 10000 height

/-- Effective target chunk size in bytes:
`target_size_bytes = target_size_gb * 1024 * 1024 * 1024 * 0.9`
(src/data_pull_mssql.py line 65). -/
def targetSizeBytes (targetGb : ℚ) : ℚ := targetGb * 1024 * 1024 * 1024 * (9 / 10)

/-- Python `int()` applied to a rational value: truncation toward zero. -/
def pyTrunc (q : ℚ) : ℤ := if q < 0 then -⌊-q⌋ else ⌊q⌋

/-- Rows-per-chunk estimate of the sizer (src/data_pull_mssql.py lines 51-68):
`bytes_per_row = sample_file_size / sample_size` and
`rows_per_chunk = int(target_size_bytes / bytes_per_row)`.
Either division by zero raises a Python ZeroDivisionError, modelled as an
error value (it is caught only by the generic job-level handler at line 146). -/
def estimateRowsPerChunk (height sampleFileSize : ℕ) (targetGb : ℚ) : Except String ℤ :=
  if sampleSize height = 0 then Except.error divisionByZeroMsg
  else if (sampleFileSize : ℚ) / (sampleSize height : ℚ) = 0 then Except.error divisionByZeroMsg
  else Except.ok (pyTrunc (targetSizeBytes targetGb / ((sampleFileSize : ℚ) / (sampleSize height : ℚ))))

/-- Number of chunks: `num_chunks = math.ceil(total_rows / rows_per_chunk)`
(src/data_pull_mssql.py line 72), for a positive `rows_per_chunk`. -/
def chunkCountNat (R P : ℕ) : ℕ := (⌈(R : ℚ) / (P : ℚ)⌉).toNat

/-- Start row of chunk `i`: `start_idx = i * rows_per_chunk`
(src/data_pull_mssql.py line 78). -/
def chunkStart (P i : ℕ) : ℕ := i * P

/-- End row (exclusive) of chunk `i`:
`end_idx = min((i + 1) * rows_per_chunk, total_rows)`
(src/data_pull_mssql.py line 79). -/
def chunkEnd (R P i : ℕ) : ℕ := min ((i + 1) * P) R

/-- Row count of chunk `i`: `df.slice(start_idx, end_idx - start_idx)`
(src/data_pull_mssql.py line 82). -/
def chunkLen (R P i : ℕ) : ℕ := chunkEnd R P i - chunkStart P i

/-- Arithmetic bounds of the ceiling division `(R + P - 1) / P`. -/
lemma ceilDiv_bounds (R P : ℕ) (hR : 1 ≤ R) (hP : 1 ≤ P) :
    1 ≤ (R + P - 1) / P ∧ R ≤ ((R + P - 1) / P) * P ∧ ((R + P - 1) / P - 1) * P < R := by
  have hdm := Nat.div_add_mod (R + P - 1) P
  have hr : (R + P - 1) % P < P := Nat.mod_lt _ (by omega)
  set M := (R + P - 1) / P with hM
  set r := (R + P - 1) % P with hrdef
  have hM1 : 1 ≤ M := by
    rcases Nat.eq_zero_or_pos M with h0 | h1
    · rw [h0, Nat.mul_zero] at hdm
      omega
    · exact h1
  have hsub : (M - 1) * P = M * P - 1 * P := Nat.sub_mul M 1 P
  rw [Nat.one_mul] at hsub
  have hcomm : M * P = P * M := Nat.mul_comm M P
  refine ⟨hM1, ?_, ?_⟩
  · rw [hcomm]
    generalize P * M = q at hdm ⊢
    omega
  · rw [hsub, hcomm]
    generalize P * M = q at hdm ⊢
    omega

/-- The code's rational ceiling `math.ceil(R / P)` equals the natural
ceiling division `(R + P - 1) / P`. -/
lemma chunkCountNat_eq (R P : ℕ) (hR : 1 ≤ R) (hP : 1 ≤ P) :
    chunkCountNat R P = (R + P - 1) / P := by
  obtain ⟨hM1, hRM, hMR⟩ := ceilDiv_bounds R P hR hP
  set M := (R + P - 1) / P with hM
  have hPpos : (0 : ℚ) < (P : ℚ) := by exact_mod_cast hP
  have hceil : ⌈(R : ℚ) / (P : ℚ)⌉ = (M : ℤ) := by
    rw [Int.ceil_eq_iff]
    constructor
    · rw [lt_div_iff₀ hPpos]
      have hcast : ((M - 1 : ℕ) : ℚ) * (P : ℚ) < (R : ℚ) := by exact_mod_cast hMR
      rw [Nat.cast_sub hM1] at hcast
      push_cast at hcast ⊢
      linarith
    · rw [div_le_iff₀ hPpos]
      push_cast
      exact_mod_cast hRM
  unfold chunkCountNat
  rw [hceil]
  exact Int.toNat_natCast M

/-- Partial sums of the chunk lengths: for every `n`, the first `n` chunks
cover exactly `min (n * P) R` rows. -/
lemma sum_chunkLen (R P : ℕ) : ∀ n, (Finset.range n).sum (chunkLen R P) = min (n * P) R := by
  intro n
  induction n with
  | zero => simp [chunkLen, chunkStart, chunkEnd]
  | succ n ih =>
    rw [Finset.sum_range_succ, ih]
    unfold chunkLen chunkStart chunkEnd
    have hmono : n * P ≤ (n + 1) * P := Nat.mul_le_mul_right P (by omega)
    rcases Nat.le_total R (n * P) with h | h
    · have h2 : R ≤ (n + 1) * P := Nat.le_trans h hmono
      rw [Nat.min_eq_right h, Nat.min_eq_right h2, Nat.sub_eq_zero_of_le h, Nat.add_zero]
    · have h1 : min (n * P) R = n * P := Nat.min_eq_left h
      rw [h1]
      have h2 : n * P ≤ min ((n + 1) * P) R := Nat.le_min.mpr ⟨hmono, h⟩
      omega

/-- Claim C1: for every table with `row_count = R ≥ 1` and every
`rows_per_chunk = P ≥ 1`, the export loop produces exactly `ceil(R/P)`
chunks (equal to the ceiling division `(R + P - 1) / P`); the chunk row
counts sum exactly to `R`; every chunk except the last has exactly `P`
rows; and the last chunk's row count `R - (ceil(R/P) - 1) * P` is strictly
positive and at most `R`.  Chunk `i` covers rows
`[chunkStart P i, chunkEnd R P i) = [i*P, min((i+1)*P, R))` by definition,
embedded from src/data_pull_mssql.py lines 77-82. -/
theorem chunk_partition_c1 (R P : ℕ) (hR : 1 ≤ R) (hP : 1 ≤ P) :
    chunkCountNat R P = (R + P - 1) / P ∧
    (Finset.range (chunkCountNat R P)).sum (chunkLen R P) = R ∧
    (∀ i, i < chunkCountNat R P - 1 → chunkLen R P i = P) ∧
    chunkLen R P (chunkCountNat R P - 1) = R - (chunkCountNat R P - 1) * P ∧
    0 < chunkLen R P (chunkCountNat R P - 1) ∧
    chunkLen R P (chunkCountNat R P - 1) ≤ R := by
  have hEq := chunkCountNat_eq R P hR hP
  obtain ⟨hM1, hRM, hMR⟩ := ceilDiv_bounds R P hR hP
  rw [← hEq] at hM1 hRM hMR
  set N := chunkCountNat R P with hN
  have hlast : chunkLen R P (N - 1) = R - (N - 1) * P := by
    unfold chunkLen chunkStart chunkEnd
    rw [Nat.sub_add_cancel hM1, Nat.min_eq_right hRM]
  refine ⟨hEq, ?_, ?_, hlast, ?_, ?_⟩
  · rw [sum_chunkLen, Nat.min_eq_right hRM]
  · intro i hi
    unfold chunkLen chunkStart chunkEnd
    have h1 : i + 1 ≤ N - 1 := by omega
    have h2 : (i + 1) * P ≤ (N - 1) * P := Nat.mul_le_mul_right P h1
    have h3 : (i + 1) * P ≤ R := Nat.le_of_lt (Nat.lt_of_le_of_lt h2 hMR)
    rw [Nat.min_eq_left h3, Nat.add_one_mul]
    exact Nat.add_sub_cancel_left (i * P) P
  · rw [hlast]
    exact Nat.sub_pos_of_lt hMR
  · rw [hlast]
    exact Nat.sub_le R _

/-- Witness for C1 at `R = 5`, `P = 2`. -/
theorem chunk_partition_c1_witness :
    chunkCountNat 5 2 = (5 + 2 - 1) / 2 ∧
    (Finset.range (chunkCountNat 5 2)).sum (chunkLen 5 2) = 5 ∧
    (∀ i, i < chunkCountNat 5 2 - 1 → chunkLen 5 2 i = 2) ∧
    chunkLen 5 2 (chunkCountNat 5 2 - 1) = 5 - (chunkCountNat 5 2 - 1) * 2 ∧
    0 < chunkLen 5 2 (chunkCountNat 5 2 - 1) ∧
    chunkLen 5 2 (chunkCountNat 5 2 - 1) ≤ 5 :=
  chunk_partition_c1 5 2 (by decide) (by decide)

/-- Normal-path evaluation of the sizer: with at least one sampled row and a
positive sample byte count, the estimate succeeds and truncates the quotient. -/
lemma estimate_ok (height bytes : ℕ) (hh : 1 ≤ height) (hb : 1 ≤ bytes) (gb : ℚ) :
    estimateRowsPerChunk height bytes gb =
      Except.ok (pyTrunc (targetSizeBytes gb / ((bytes : ℚ) / (sampleSize height : ℚ)))) := by
  have hs : 1 ≤ sampleSize height := le_min (by omega) hh
  have hs0 : sampleSize height ≠ 0 := by omega
  have hspos : (0 : ℚ) < (sampleSize height : ℚ) := by exact_mod_cast hs
  have hbpos : (0 : ℚ) < (bytes : ℚ) := by exact_mod_cast hb
  have hbpr : (0 : ℚ) < (bytes : ℚ) / (sampleSize height : ℚ) := div_pos hbpos hspos
  unfold estimateRowsPerChunk
  rw [if_neg hs0, if_neg (ne_of_gt hbpr)]

/-- Truncation toward zero agrees with the floor on nonnegative values. -/
lemma pyTrunc_eq_floor (q : ℚ) (h : 0 ≤ q) : pyTrunc q = ⌊q⌋ := by
  unfold pyTrunc
  rw [if_neg (not_lt.mpr h)]

/-- Counterexample to claim C2: a 1-row table whose sampled parquet file
measures 2 GiB (one row larger than the 0.9 GiB effective target) makes the
sizer return `rows_per_chunk = 0`, not `≥ 1`: the code
`rows_per_chunk = int(target_size_bytes / bytes_per_row)` has no lower-bound
guard (src/data_pull_mssql.py line 68). -/
theorem estimate_zero_counterexample :
    estimateRowsPerChunk 1 2147483648 1 = Except.ok 0 ∧ ¬ (1 ≤ (0 : ℤ)) := by
  constructor
  · norm_num [estimateRowsPerChunk, sampleSize, targetSizeBytes, pyTrunc]
  · decide

/-- Claim C2 (amended): with a nonempty sample and positive sample bytes the
sizer returns `rows_per_chunk = ⌊effective_target / bytes_per_row⌋`, which is
`≥ 1` exactly when `bytes_per_row` is at most the effective target (there is
no floor-at-1 guard); and on a zero-row table, or a zero `bytes_per_row`, the
computation raises a division-by-zero error instead of proceeding. -/
theorem estimate_rows_per_chunk_c2 (height bytes : ℕ) (gb : ℚ)
    (hh : 1 ≤ height) (hb : 1 ≤ bytes) (hg : 0 < gb) :
    estimateRowsPerChunk height bytes gb =
      Except.ok ⌊targetSizeBytes gb / ((bytes : ℚ) / (sampleSize height : ℚ))⌋ ∧
    (1 ≤ ⌊targetSizeBytes gb / ((bytes : ℚ) / (sampleSize height : ℚ))⌋ ↔
      (bytes : ℚ) / (sampleSize height : ℚ) ≤ targetSizeBytes gb) ∧
    (∀ b : ℕ, ∀ g : ℚ, estimateRowsPerChunk 0 b g = Except.error divisionByZeroMsg) ∧
    estimateRowsPerChunk height 0 gb = Except.error divisionByZeroMsg := by
  have hs : 1 ≤ sampleSize height := le_min (by omega) hh
  have hs0 : sampleSize height ≠ 0 := by omega
  have hspos : (0 : ℚ) < (sampleSize height : ℚ) := by exact_mod_cast hs
  have hbpos : (0 : ℚ) < (bytes : ℚ) := by exact_mod_cast hb
  have hbpr : (0 : ℚ) < (bytes : ℚ) / (sampleSize height : ℚ) := div_pos hbpos hspos
  have htpos : 0 < targetSizeBytes gb := by
    unfold targetSizeBytes
    positivity
  refine ⟨?_, ?_, ?_, ?_⟩
  · rw [estimate_ok height bytes hh hb gb,
      pyTrunc_eq_floor _ (le_of_lt (div_pos htpos hbpr))]
  · rw [show (1 : ℤ) ≤ ⌊targetSizeBytes gb / ((bytes : ℚ) / (sampleSize height : ℚ))⌋ ↔
        ((1 : ℤ) : ℚ) ≤ targetSizeBytes gb / ((bytes : ℚ) / (sampleSize height : ℚ)) from
        Int.le_floor]
    push_cast
    exact one_le_div hbpr
  · intro b g
    unfold estimateRowsPerChunk sampleSize
    simp
  · unfold estimateRowsPerChunk
    rw [if_neg hs0]
    simp

/-- Witness for C2 (amended) at `height = 250000`, `bytes = 40000000`,
`gb = 1`. -/
theorem estimate_rows_per_chunk_c2_witness :
    estimateRowsPerChunk 250000 40000000 1 =
      Except.ok ⌊targetSizeBytes 1 / ((40000000 : ℚ) / (sampleSize 250000 : ℚ))⌋ ∧
    (1 ≤ ⌊targetSizeBytes 1 / ((40000000 : ℚ) / (sampleSize 250000 : ℚ))⌋ ↔
      (40000000 : ℚ) / (sampleSize 250000 : ℚ) ≤ targetSizeBytes 1) ∧
    (∀ b : ℕ, ∀ g : ℚ, estimateRowsPerChunk 0 b g = Except.error divisionByZeroMsg) ∧
    estimateRowsPerChunk 250000 0 1 = Except.error divisionByZeroMsg :=
  estimate_rows_per_chunk_c2 250000 40000000 1 (by decide) (by decide) (by norm_num)

/-- Claim C5: the sizer computes
`rows_per_chunk = floor((target_gb * 1024^3 * 0.9) / bytes_per_row)` with
`bytes_per_row = sample_bytes / min(10000, row_count)` over the first
`min(10000, row_count)` rows; on the spec's example (target 1 GB,
bytes-per-row 4000, 250000 rows) it yields `rows_per_chunk = 241591` and the
partition has 2 chunks of 241591 and 8409 rows. -/
theorem sizing_formula_c5 (height bytes : ℕ) (gb : ℚ)
    (hh : 1 ≤ height) (hb : 1 ≤ bytes) (hg : 0 < gb) :
    estimateRowsPerChunk height bytes gb =
      Except.ok ⌊(gb * 1024 * 1024 * 1024 * (9 / 10)) /
        ((bytes : ℚ) / ((min 10000 height : ℕ) : ℚ))⌋ ∧
    estimateRowsPerChunk 250000 40000000 1 = Except.ok 241591 ∧
    chunkCountNat 250000 241591 = 2 ∧
    chunkLen 250000 241591 0 = 241591 ∧
    chunkLen 250000 241591 1 = 8409 := by
  refine ⟨?_, ?_, ?_, ?_, ?_⟩
  · have htpos : 0 < targetSizeBytes gb := by
      unfold targetSizeBytes
      positivity
    have hs : 1 ≤ sampleSize height := le_min (by omega) hh
    have hspos : (0 : ℚ) < (sampleSize height : ℚ) := by exact_mod_cast hs
    have hbpos : (0 : ℚ) < (bytes : ℚ) := by exact_mod_cast hb
    have hbpr : (0 : ℚ) < (bytes : ℚ) / (sampleSize height : ℚ) := div_pos hbpos hspos
    rw [estimate_ok height bytes hh hb gb,
      pyTrunc_eq_floor _ (le_of_lt (div_pos htpos hbpr))]
    rfl
  · norm_num [estimateRowsPerChunk, sampleSize, targetSizeBytes, pyTrunc]
  · rw [chunkCountNat_eq 250000 241591 (by decide) (by decide)]
  · decide
  · decide

/-- Witness for C5 at `height = 250000`, `bytes = 40000000`, `gb = 1`. -/
theorem sizing_formula_c5_witness :
    estimateRowsPerChunk 250000 40000000 1 =
      Except.ok ⌊((1 : ℚ) * 1024 * 1024 * 1024 * (9 / 10)) /
        ((40000000 : ℚ) / ((min 10000 250000 : ℕ) : ℚ))⌋ ∧
    estimateRowsPerChunk 250000 40000000 1 = Except.ok 241591 ∧
    chunkCountNat 250000 241591 = 2 ∧
    chunkLen 250000 241591 0 = 241591 ∧
    chunkLen 250000 241591 1 = 8409 :=
  sizing_formula_c5 250000 40000000 1 (by decide) (by decide) (by norm_num)

/-- Local staging files created by the exporter under `/tmp/chunked_data`:
the sample parquet (line 56), one parquet per chunk (line 87) and the
metadata json (line 129). -/
inductive StagingFile where
  | sample : StagingFile
  | chunk (i : ℕ) : StagingFile
  | metadata : StagingFile
deriving DecidableEq

/-- Observable upload attempts of the exporter, in the order they are
performed: one per chunk ordinal (lines 97-110) and one for the manifest
(lines 132-140), each with its success flag. -/
inductive ExportEvent where
  | chunkUpload (i : ℕ) (success : Bool) : ExportEvent
  | manifestUpload (success : Bool) : ExportEvent
deriving DecidableEq

/-- State threaded through the exporter: the trace of upload attempts, the
staging files currently on local disk, the chunk ordinals successfully
stored remotely, and whether the manifest upload succeeded. -/
structure ExportState where
  events : List ExportEvent
  localFiles : List StagingFile
  uploaded : List ℕ
  manifestUploaded : Bool
deriving DecidableEq

/-- Body of the chunk loop (src/data_pull_mssql.py lines 77-113) for ordinal
`i`: write the chunk file, attempt its upload; on success remove the local
file (line 113), on failure print and `continue` — which skips the removal
and leaves the file on disk (lines 107-110). -/
def processChunk (uploadOk : ℕ → Bool) (st : ExportState) (i : ℕ) : ExportState :=
  if uploadOk i then
    { st with
      events := st.events ++ [ExportEvent.chunkUpload i true],
      localFiles := (st.localFiles ++ [StagingFile.chunk i]).erase (StagingFile.chunk i),
      uploaded := st.uploaded ++ [i] }
  else
    { st with
      events := st.events ++ [ExportEvent.chunkUpload i false],
      localFiles := st.localFiles ++ [StagingFile.chunk i] }

/-- Full export flow after sizing (src/data_pull_mssql.py lines 54-144):
write the sample file, run the chunk loop over ordinals `0..numChunks-1`,
remove the sample file (line 116), write the metadata file, attempt the
manifest upload inside its own try/except (lines 132-140), and remove the
metadata file (line 142). -/
def exportRun (numChunks : ℕ) (uploadOk : ℕ → Bool) (manifestOk : Bool) : ExportState :=
  let st0 : ExportState :=
    { events := [], localFiles := [StagingFile.sample], uploaded := [], manifestUploaded := false }
  let st1 := (List.range numChunks).foldl (processChunk uploadOk) st0
  let st2 := { st1 with localFiles := st1.localFiles.erase StagingFile.sample }
  let st3 := { st2 with localFiles := st2.localFiles ++ [StagingFile.metadata] }
  let st4 := { st3 with
    events := st3.events ++ [ExportEvent.manifestUpload manifestOk],
    manifestUploaded := manifestOk }
  { st4 with localFiles := st4.localFiles.erase StagingFile.metadata }

/-- Chunk staging files for distinct ordinals are distinct from each other,
from the sample file and from the metadata file. -/
lemma chunk_not_mem_staging (n : ℕ) (l : List ℕ) (h : ∀ i ∈ l, i < n) :
    StagingFile.chunk n ∉ StagingFile.sample :: l.map StagingFile.chunk := by
  simp only [List.mem_cons, List.mem_map]
  rintro (h1 | ⟨i, hi, h2⟩)
  · exact StagingFile.noConfusion h1
  · have hin : i = n := by
      simpa using h2
    have hlt := h i hi
    omega

/-- Closed form of the chunk loop: every ordinal in `0..n-1` is attempted
in order, successfully uploaded chunks have their staging file removed, and
failed chunks leave their staging file in place. -/
lemma foldl_processChunk (u : ℕ → Bool) (n : ℕ) :
    (List.range n).foldl (processChunk u)
      { events := [], localFiles := [StagingFile.sample], uploaded := [],
        manifestUploaded := false } =
    { events := (List.range n).map (fun i => ExportEvent.chunkUpload i (u i)),
      localFiles :=
        StagingFile.sample :: ((List.range n).filter (fun i => !u i)).map StagingFile.chunk,
      uploaded := (List.range n).filter (fun i => u i),
      manifestUploaded := false } := by
  induction n with
  | zero => rfl
  | succ n ih =>
    rw [List.range_succ, List.foldl_append, ih, List.foldl_cons, List.foldl_nil]
    have hbound : ∀ i ∈ (List.range n).filter (fun i => !u i), i < n := by
      intro i hi
      exact List.mem_range.mp (List.mem_of_mem_filter hi)
    have hnm := chunk_not_mem_staging n _ hbound
    by_cases hu : u n
    · rw [processChunk, if_pos hu]
      have herase :
          ((StagingFile.sample ::
              ((List.range n).filter (fun i => !u i)).map StagingFile.chunk) ++
            [StagingFile.chunk n]).erase (StagingFile.chunk n) =
          StagingFile.sample ::
            ((List.range n).filter (fun i => !u i)).map StagingFile.chunk := by
        rw [List.erase_append_right _ hnm, List.erase_cons_head, List.append_nil]
      rw [herase]
      simp [List.filter_append, List.map_append, hu]
    · rw [processChunk, if_neg hu]
      simp [List.filter_append, List.map_append, hu]

/-- Closed form of the whole export run. -/
lemma exportRun_spec (n : ℕ) (u : ℕ → Bool) (m : Bool) :
    exportRun n u m =
    { events :=
        (List.range n).map (fun i => ExportEvent.chunkUpload i (u i)) ++
          [ExportEvent.manifestUpload m],
      localFiles := ((List.range n).filter (fun i => !u i)).map StagingFile.chunk,
      uploaded := (List.range n).filter (fun i => u i),
      manifestUploaded := m } := by
  have hmeta : StagingFile.metadata ∉
      ((List.range n).filter (fun i => !u i)).map StagingFile.chunk := by
    simp only [List.mem_map]
    rintro ⟨i, hi, h⟩
    exact StagingFile.noConfusion h
  simp only [exportRun]
  rw [foldl_processChunk]
  dsimp only
  rw [List.erase_cons_head, List.erase_append_right _ hmeta, List.erase_cons_head,
    List.append_nil]

/-- Claim C3: for every upload oracle — in particular one where some chunk
upload fails — the exporter attempts every chunk ordinal in order, records
each attempt's outcome in the trace instead of raising, and still attempts
the manifest upload after all chunk attempts. -/
theorem upload_failure_continue_c3 (n : ℕ) (u : ℕ → Bool) (m : Bool) :
    (exportRun n u m).events =
      (List.range n).map (fun i => ExportEvent.chunkUpload i (u i)) ++
        [ExportEvent.manifestUpload m] ∧
    ExportEvent.manifestUpload m ∈ (exportRun n u m).events := by
  rw [exportRun_spec]
  exact ⟨rfl, by simp⟩

/-- Claim C6: the manifest upload attempt is the single last event of the
trace, strictly after every chunk upload attempt; and the set of
successfully uploaded chunks is exactly the chunks whose own upload
succeeded, independent of the manifest outcome — a manifest failure does not
raise (the run still returns a final state) and does not retroactively
invalidate uploaded chunks. -/
theorem manifest_last_c6 (n : ℕ) (u : ℕ → Bool) (m : Bool) :
    (exportRun n u m).events =
      (List.range n).map (fun i => ExportEvent.chunkUpload i (u i)) ++
        [ExportEvent.manifestUpload m] ∧
    (exportRun n u m).uploaded = (List.range n).filter (fun i => u i) ∧
    (exportRun n u false).uploaded = (exportRun n u true).uploaded := by
  rw [exportRun_spec, exportRun_spec, exportRun_spec]
  exact ⟨rfl, rfl, rfl⟩

/-- Counterexample to claim C7: with two chunks where chunk 0's upload fails
and chunk 1's succeeds, the failed chunk's staging file is still on local
disk when the export returns — the `continue` at line 110 of
src/data_pull_mssql.py skips the `os.remove` at line 113. -/
theorem staging_leak_counterexample :
    (exportRun 2 (fun i => decide (i = 1)) true).localFiles = [StagingFile.chunk 0] ∧
    [StagingFile.chunk 0] ≠ ([] : List StagingFile) := by
  constructor
  · rw [exportRun_spec]
    rfl
  · decide

/-- State of the exporter right after the sample file is written
(src/data_pull_mssql.py line 56): the sample parquet is on disk, nothing
has been attempted or uploaded yet.  The sizing divisions at lines 62 and
68 run from this state, so their ZeroDivisionError leaves exactly this
state behind when the generic handler at line 146 returns. -/
def exportInitState : ExportState :=
  { events := [], localFiles := [StagingFile.sample], uploaded := [],
    manifestUploaded := false }

/-- Chunk loop with per-chunk serialization outcomes: the
`chunk_df.write_parquet` call at src/data_pull_mssql.py line 87 sits
outside the per-chunk try of lines 97-110, so when it raises for some
ordinal the loop aborts with the state accumulated so far (the generic
handler at line 146 performs no cleanup); the flag records whether the
loop ran to completion.  The contents of a chunk file interrupted
mid-write are not modelled: nothing is asserted about the failing
ordinal's own file. -/
def exportLoopE (uploadOk writeOk : ℕ → Bool) : List ℕ → ExportState → ExportState × Bool
  | [], st => (st, true)
  | i :: rest, st =>
    if writeOk i then exportLoopE uploadOk writeOk rest (processChunk uploadOk st i)
    else (st, false)

/-- Export flow of src/data_pull_mssql.py lines 54-147 with its raising
paths represented: a sizing failure (zero-row table or zero bytes-per-row)
raises after the sample file is written, a chunk serialization failure
aborts the loop, and in both cases the generic except at line 146 returns
without removing any staging file; only a completed loop reaches the
sample removal, manifest attempt and metadata removal of lines 116-142. -/
def exportRunE (sizingOk : Bool) (numChunks : ℕ) (writeOk uploadOk : ℕ → Bool)
    (manifestOk : Bool) : ExportState × Bool :=
  if sizingOk then
    match exportLoopE uploadOk writeOk (List.range numChunks) exportInitState with
    | (st1, false) => (st1, false)
    | (st1, true) =>
      let st2 := { st1 with localFiles := st1.localFiles.erase StagingFile.sample }
      let st3 := { st2 with localFiles := st2.localFiles ++ [StagingFile.metadata] }
      let st4 := { st3 with
        events := st3.events ++ [ExportEvent.manifestUpload manifestOk],
        manifestUploaded := manifestOk }
      ({ st4 with localFiles := st4.localFiles.erase StagingFile.metadata }, true)
  else (exportInitState, false)

/-- With every serialization succeeding, the extended loop is the plain
fold of the per-chunk body and reports completion. -/
lemma exportLoopE_all_ok (u w : ℕ → Bool) (l : List ℕ) (st : ExportState)
    (h : ∀ i ∈ l, w i = true) :
    exportLoopE u w l st = (l.foldl (processChunk u) st, true) := by
  induction l generalizing st with
  | nil => rfl
  | cons i rest ih =>
    rw [exportLoopE, if_pos (h i (List.mem_cons_self i rest)), List.foldl_cons]
    exact ih (processChunk u st i) (fun j hj => h j (List.mem_cons_of_mem i hj))

/-- With some serialization failing, the extended loop reports an abort. -/
lemma exportLoopE_abort (u w : ℕ → Bool) (l : List ℕ) (st : ExportState)
    (h : ∃ j ∈ l, w j = false) : (exportLoopE u w l st).2 = false := by
  induction l generalizing st with
  | nil => simp at h
  | cons i rest ih =>
    by_cases hw : w i = true
    · have hrest : ∃ j ∈ rest, w j = false := by
        obtain ⟨j, hj, hjf⟩ := h
        rcases List.mem_cons.mp hj with hji | hjr
        · rw [hji] at hjf
          exact absurd hw (by rw [hjf]; exact Bool.noConfusion)
        · exact ⟨j, hjr, hjf⟩
      rw [exportLoopE, if_pos hw]
      exact ih (processChunk u st i) hrest
    · rw [exportLoopE, if_neg hw]

/-- The per-chunk body never removes the sample file, so the loop preserves
its presence on disk whether it completes or aborts. -/
lemma exportLoopE_sample_mem (u w : ℕ → Bool) (l : List ℕ) (st : ExportState)
    (h : StagingFile.sample ∈ st.localFiles) :
    StagingFile.sample ∈ (exportLoopE u w l st).1.localFiles := by
  induction l generalizing st with
  | nil => exact h
  | cons i rest ih =>
    by_cases hw : w i = true
    · rw [exportLoopE, if_pos hw]
      refine ih (processChunk u st i) ?_
      unfold processChunk
      by_cases hu : u i = true
      · rw [if_pos hu]
        exact (List.mem_erase_of_ne (by exact StagingFile.noConfusion)).mpr
          (List.mem_append_left _ h)
      · rw [if_neg hu]
        exact List.mem_append_left _ h
    · rw [exportLoopE, if_neg hw]
      exact h

/-- A run whose sizing and serializations all succeed is exactly the plain
export run, completed. -/
lemma exportRunE_complete (n : ℕ) (w u : ℕ → Bool) (m : Bool)
    (h : ∀ i, i < n → w i = true) :
    exportRunE true n w u m = (exportRun n u m, true) := by
  unfold exportRunE
  rw [if_pos rfl,
    exportLoopE_all_ok u w (List.range n) exportInitState
      (fun i hi => h i (List.mem_range.mp hi))]
  rfl

/-- Claim C7 (amended): staging files are released only inline on each
step's success path.  When sizing and every chunk serialization succeed,
the run completes and the files remaining at return are exactly the failed
chunks' files — the sample and metadata files are removed, a chunk's file
is removed on successful upload, and a chunk whose upload fails leaves its
file on disk (the `continue` at line 110 skips the removal at line 113).
When the sizing divisions raise (zero-row table or zero bytes-per-row),
the run returns via the generic handler with the sample file still on
disk.  When a chunk serialization raises, the run aborts via the same
handler with no cleanup, so the sample file (at least) is still on disk at
return. -/
theorem staging_cleanup_c7 (n : ℕ) (w u : ℕ → Bool) (m : Bool) :
    ((∀ i, i < n → w i = true) →
      exportRunE true n w u m = (exportRun n u m, true) ∧
      (exportRun n u m).localFiles =
        ((List.range n).filter (fun i => !u i)).map StagingFile.chunk) ∧
    exportRunE false n w u m = (exportInitState, false) ∧
    exportInitState.localFiles = [StagingFile.sample] ∧
    ((∃ j, j < n ∧ w j = false) →
      (exportRunE true n w u m).2 = false ∧
      StagingFile.sample ∈ (exportRunE true n w u m).1.localFiles) := by
  refine ⟨?_, rfl, rfl, ?_⟩
  · intro h
    refine ⟨exportRunE_complete n w u m h, ?_⟩
    rw [exportRun_spec]
  · rintro ⟨j, hj, hw⟩
    have habort : (exportLoopE u w (List.range n) exportInitState).2 = false :=
      exportLoopE_abort u w (List.range n) exportInitState
        ⟨j, List.mem_range.mpr hj, hw⟩
    have hmem : StagingFile.sample ∈
        (exportLoopE u w (List.range n) exportInitState).1.localFiles :=
      exportLoopE_sample_mem u w (List.range n) exportInitState
        (List.mem_cons_self _ _)
    rcases hloop : exportLoopE u w (List.range n) exportInitState with ⟨st1, b⟩
    rw [hloop] at habort hmem
    have hb : b = false := habort
    subst hb
    unfold exportRunE
    rw [if_pos rfl, hloop]
    exact ⟨rfl, hmem⟩

/-- Witness for C7 (amended) at two chunks: the completed-run conjunct with
all serializations succeeding and chunk 0's upload failing, and the
abort conjunct with chunk 0's serialization failing. -/
theorem staging_cleanup_c7_witness :
    ((∀ i, i < 2 → (fun _ : ℕ => true) i = true) ∧
      (exportRunE true 2 (fun _ : ℕ => true) (fun i => decide (i = 1)) true =
          (exportRun 2 (fun i => decide (i = 1)) true, true) ∧
        (exportRun 2 (fun i => decide (i = 1)) true).localFiles =
          ((List.range 2).filter
            (fun i => !(fun i => decide (i = 1)) i)).map StagingFile.chunk)) ∧
    exportRunE false 2 (fun _ : ℕ => true) (fun i => decide (i = 1)) true =
      (exportInitState, false) ∧
    exportInitState.localFiles = [StagingFile.sample] ∧
    ((∃ j, j < 2 ∧ (fun i : ℕ => decide (i = 1)) j = false) ∧
      ((exportRunE true 2 (fun i : ℕ => decide (i = 1))
          (fun i => decide (i = 1)) true).2 = false ∧
        StagingFile.sample ∈ (exportRunE true 2 (fun i : ℕ => decide (i = 1))
          (fun i => decide (i = 1)) true).1.localFiles)) :=
  ⟨⟨fun i hi => rfl,
      (staging_cleanup_c7 2 (fun _ : ℕ => true) (fun i => decide (i = 1)) true).1
        (fun i hi => rfl)⟩,
    (staging_cleanup_c7 2 (fun _ : ℕ => true) (fun i => decide (i = 1)) true).2.1,
    (staging_cleanup_c7 2 (fun _ : ℕ => true) (fun i => decide (i = 1)) true).2.2.1,
    ⟨⟨0, by decide, by decide⟩,
      (staging_cleanup_c7 2 (fun i : ℕ => decide (i = 1))
          (fun i => decide (i = 1)) true).2.2.2 ⟨0, by decide, by decide⟩⟩⟩

/-- Message of the exception raised when a remote chunk download fails
(b2sdk raises on a missing file name in
src/test_duckdb_read.py line 105). -/
def downloadErrorMsg : String := "file not present"

/-- Message of the ValueError raised by create_unified_view
(src/test_duckdb_read.py line 116). -/
def noDataChunksMsg : String := "No data chunks available"

/-- Manifest record as written by the exporter
(src/data_pull_mssql.py lines 119-125); only the fields the reader consumes
are modelled. -/
structure Manifest where
  num_chunks : ℕ
  total_rows : ℕ
deriving DecidableEq

/-- Abstract view of the object store under the reader's prefix:
whether `{prefix}/metadata.json` downloads and parses (and to what), and
which chunk ordinals `i` have a file `{prefix}/chunk_{i:04d}.parquet`
actually present. -/
structure RemoteStore where
  manifest : Option Manifest
  chunkOrdinals : List ℕ
deriving DecidableEq

/-- Embedding of `B2DuckDBConnector._load_metadata`
(src/test_duckdb_read.py lines 57-88), projected to the `num_chunks` field
that `_download_chunks` consumes: when the manifest downloads and parses its
`num_chunks` is returned; only when that raises does the code fall back to
listing the `.parquet` files under the prefix and counting them. -/
def loadMetadataNumChunks (s : RemoteStore) : ℕ :=
  match s.manifest with
  | some m => m.num_chunks
  | none => s.chunkOrdinals.length

/-- Download loop over a list of expected chunk ordinals: each download of a
present file succeeds; the first missing file raises, aborting the loop
(src/test_duckdb_read.py lines 99-107 have no try/except). -/
def downloadChunksList (s : RemoteStore) : List ℕ → Except String (List ℕ)
  | [] => Except.ok []
  | i :: rest =>
    if i ∈ s.chunkOrdinals then
      match downloadChunksList s rest with
      | Except.ok ps => Except.ok (i :: ps)
      | Except.error e => Except.error e
    else Except.error downloadErrorMsg

/-- Embedding of `B2DuckDBConnector._download_chunks` with the default
`limit=None` (src/test_duckdb_read.py lines 90-107): downloads
`chunk_{i:04d}.parquet` for every `i` in `range(metadata['num_chunks'])`. -/
def downloadChunks (s : RemoteStore) : Except String (List ℕ) :=
  downloadChunksList s (List.range (loadMetadataNumChunks s))

/-- All expected ordinals present: the download loop returns them all. -/
lemma downloadChunksList_ok (s : RemoteStore) (l : List ℕ)
    (h : ∀ i ∈ l, i ∈ s.chunkOrdinals) : downloadChunksList s l = Except.ok l := by
  induction l with
  | nil => rfl
  | cons i rest ih =>
    have hi : i ∈ s.chunkOrdinals := h i (List.mem_cons_self i rest)
    have hrest := ih (fun j hj => h j (List.mem_cons_of_mem i hj))
    rw [downloadChunksList, if_pos hi, hrest]

/-- Some expected ordinal missing: the download loop raises. -/
lemma downloadChunksList_error (s : RemoteStore) (l : List ℕ)
    (h : ∃ i ∈ l, i ∉ s.chunkOrdinals) :
    downloadChunksList s l = Except.error downloadErrorMsg := by
  induction l with
  | nil => simp at h
  | cons i rest ih =>
    by_cases hi : i ∈ s.chunkOrdinals
    · have hrest : ∃ j ∈ rest, j ∉ s.chunkOrdinals := by
        obtain ⟨j, hj, hjn⟩ := h
        rcases List.mem_cons.mp hj with hji | hjr
        · exact absurd (hji ▸ hi) hjn
        · exact ⟨j, hjr, hjn⟩
      rw [downloadChunksList, if_pos hi, ih hrest]
    · rw [downloadChunksList, if_neg hi]

/-- Store of the C4 scenario: a valid manifest claiming 5 chunks while only
chunk files 0, 1, 2 are actually present under the prefix. -/
def storeMismatch : RemoteStore :=
  { manifest := some { num_chunks := 5, total_rows := 250000 },
    chunkOrdinals := [0, 1, 2] }

/-- Counterexample to claim C4: with a valid manifest claiming
`chunk_count = 5` but only chunk files 0-2 present, the reader keeps the
manifest's count of 5, attempts to download the 5 constructed keys, and
raises on the missing chunk — it neither re-derives the chunk list by
listing nor operates on the 3 chunks actually present. -/
theorem manifest_mismatch_counterexample :
    loadMetadataNumChunks storeMismatch = 5 ∧
    downloadChunks storeMismatch = Except.error downloadErrorMsg ∧
    downloadChunks storeMismatch ≠ Except.ok [0, 1, 2] := by
  have herr : downloadChunks storeMismatch = Except.error downloadErrorMsg :=
    downloadChunksList_error storeMismatch _ ⟨3, by decide, by decide⟩
  refine ⟨rfl, herr, ?_⟩
  rw [herr]
  intro hcontra
  exact Except.noConfusion hcontra

/-- Claim C4 (amended): the reader re-derives the chunk list by listing only
when the manifest is absent or unparseable; whenever the manifest parses,
its `num_chunks` is trusted as-is, the reader downloads exactly the chunks
`0..num_chunks-1` when they are all present, and raises a download error as
soon as one of them is missing instead of falling back to listing. -/
theorem manifest_trusted_c4 (s : RemoteStore) (m : Manifest)
    (hm : s.manifest = some m) :
    loadMetadataNumChunks s = m.num_chunks ∧
    (∀ s2 : RemoteStore, s2.manifest = none →
      loadMetadataNumChunks s2 = s2.chunkOrdinals.length) ∧
    ((∀ i, i < m.num_chunks → i ∈ s.chunkOrdinals) →
      downloadChunks s = Except.ok (List.range m.num_chunks)) ∧
    ((∃ i, i < m.num_chunks ∧ i ∉ s.chunkOrdinals) →
      downloadChunks s = Except.error downloadErrorMsg) := by
  have hload : loadMetadataNumChunks s = m.num_chunks := by
    unfold loadMetadataNumChunks
    rw [hm]
  refine ⟨hload, ?_, ?_, ?_⟩
  · intro s2 h2
    unfold loadMetadataNumChunks
    rw [h2]
  · intro hall
    unfold downloadChunks
    rw [hload]
    exact downloadChunksList_ok s _ (fun i hi => hall i (List.mem_range.mp hi))
  · rintro ⟨i, hilt, hmiss⟩
    unfold downloadChunks
    rw [hload]
    exact downloadChunksList_error s _ ⟨i, List.mem_range.mpr hilt, hmiss⟩

/-- Store with a manifest claiming 2 chunks and both chunk files present. -/
def storeBoth : RemoteStore :=
  { manifest := some { num_chunks := 2, total_rows := 20 },
    chunkOrdinals := [0, 1] }

/-- Witness for C4 (amended) at storeBoth. -/
theorem manifest_trusted_c4_witness :
    storeBoth.manifest = some { num_chunks := 2, total_rows := 20 } ∧
    (loadMetadataNumChunks storeBoth = 2 ∧
      (∀ s2 : RemoteStore, s2.manifest = none →
        loadMetadataNumChunks s2 = s2.chunkOrdinals.length) ∧
      ((∀ i, i < 2 → i ∈ storeBoth.chunkOrdinals) →
        downloadChunks storeBoth = Except.ok (List.range 2)) ∧
      ((∃ i, i < 2 ∧ i ∉ storeBoth.chunkOrdinals) →
        downloadChunks storeBoth = Except.error downloadErrorMsg)) :=
  ⟨rfl, manifest_trusted_c4 storeBoth { num_chunks := 2, total_rows := 20 } rfl⟩

/-- Embedding of `B2DuckDBConnector.create_unified_view`
(src/test_duckdb_read.py lines 109-130): if no chunks are staged yet,
download them; if the staged chunk list is still empty, raise
`ValueError("No data chunks available")`; otherwise register the unified
view over the staged chunk files. -/
def createUnifiedView (s : RemoteStore) (chunkPaths : List ℕ) :
    Except String (List ℕ) :=
  match (if chunkPaths.isEmpty then downloadChunks s else Except.ok chunkPaths) with
  | Except.error e => Except.error e
  | Except.ok ps =>
    if ps.isEmpty then Except.error noDataChunksMsg else Except.ok ps

/-- Claim C10: when the prefix holds neither a manifest nor chunk files, the
first view creation raises the error with message
`No data chunks available` instead of registering an empty view. -/
theorem empty_chunks_error_c10 (s : RemoteStore)
    (hm : s.manifest = none) (hc : s.chunkOrdinals = []) :
    createUnifiedView s [] = Except.error noDataChunksMsg := by
  have hnum : loadMetadataNumChunks s = 0 := by
    unfold loadMetadataNumChunks
    rw [hm, hc]
    rfl
  have hdl : downloadChunks s = Except.ok [] := by
    unfold downloadChunks
    rw [hnum]
    rfl
  unfold createUnifiedView
  simp [hdl]

/-- Witness for C10 at the empty store. -/
theorem empty_chunks_error_c10_witness :
    ({ manifest := none, chunkOrdinals := [] } : RemoteStore).manifest = none ∧
    ({ manifest := none, chunkOrdinals := [] } : RemoteStore).chunkOrdinals = [] ∧
    createUnifiedView { manifest := none, chunkOrdinals := [] } [] =
      Except.error noDataChunksMsg :=
  ⟨rfl, rfl, empty_chunks_error_c10 _ rfl rfl⟩

/-- Message of the OSError raised by `os.rmdir` on a non-empty directory. -/
def dirNotEmptyMsg : String := "Directory not empty"

/-- State of an opened connector relevant to `close`
(src/test_duckdb_read.py): `self.chunk_paths` (the staged paths recorded by
`_download_chunks`, as chunk ordinals), the set of chunk files actually on
disk in the temporary directory, whether the temporary directory itself
still exists, and whether the DuckDB connection is open. -/
structure ViewState where
  chunkPaths : List ℕ
  diskFiles : Finset ℕ
  tempDirPresent : Bool
  connOpen : Bool
deriving DecidableEq

/-- One iteration of the cleanup loop (src/test_duckdb_read.py lines
190-192): `if os.path.exists(path): os.remove(path)` — the existence guard
makes each removal happen at most once; the counter records how many
`os.remove` calls were actually performed. -/
def removeStep (acc : Finset ℕ × ℕ) (p : ℕ) : Finset ℕ × ℕ :=
  if p ∈ acc.1 then (acc.1.erase p, acc.2 + 1) else acc

/-- Embedding of `B2DuckDBConnector.close` (src/test_duckdb_read.py lines
183-196): close the DuckDB connection (idempotent per the engine's API),
remove each staged file that still exists, then remove the temporary
directory if it still exists — `os.rmdir` raises OSError on a non-empty
directory.  Returns the new state and the number of files removed. -/
def closeView (v : ViewState) : Except String (ViewState × ℕ) :=
  let r := v.chunkPaths.foldl removeStep (v.diskFiles, 0)
  if v.tempDirPresent ∧ r.1 ≠ ∅ then Except.error dirNotEmptyMsg
  else Except.ok
    ({ chunkPaths := v.chunkPaths, diskFiles := r.1, tempDirPresent := false,
       connOpen := false }, r.2)

/-- Cleanup loop removes every file when all on-disk files are recorded in
the staged path list. -/
lemma foldl_removeStep_empty (paths : List ℕ) :
    ∀ (fs : Finset ℕ) (k : ℕ), (∀ x ∈ fs, x ∈ paths) →
      (paths.foldl removeStep (fs, k)).1 = ∅ := by
  induction paths with
  | nil =>
    intro fs k h
    have : fs = ∅ := Finset.eq_empty_of_forall_not_mem fun x hx => by
      have := h x hx
      simp at this
    rw [this]
    rfl
  | cons p rest ih =>
    intro fs k h
    rw [List.foldl_cons]
    by_cases hp : p ∈ fs
    · rw [show removeStep (fs, k) p = (fs.erase p, k + 1) from by
        unfold removeStep
        rw [if_pos hp]]
      refine ih (fs.erase p) (k + 1) fun x hx => ?_
      obtain ⟨hxp, hxfs⟩ := Finset.mem_erase.mp hx
      rcases List.mem_cons.mp (h x hxfs) with h1 | h2
      · exact absurd h1 hxp
      · exact h2
    · rw [show removeStep (fs, k) p = (fs, k) from by
        unfold removeStep
        rw [if_neg hp]]
      refine ih fs k fun x hx => ?_
      rcases List.mem_cons.mp (h x hx) with h1 | h2
      · exact absurd (h1 ▸ hx) hp
      · exact h2

/-- Cleanup loop over an already-empty file set removes nothing. -/
lemma foldl_removeStep_of_empty (paths : List ℕ) (k : ℕ) :
    paths.foldl removeStep (∅, k) = (∅, k) := by
  induction paths with
  | nil => rfl
  | cons p rest ih =>
    rw [List.foldl_cons, show removeStep (∅, k) p = (∅, k) from by
      unfold removeStep
      rw [if_neg (Finset.not_mem_empty p)], ih]

/-- Fully-closed state reached after a successful close: no staged files on
disk, no temporary directory, no open connection. -/
def closedState (v : ViewState) : ViewState :=
  { chunkPaths := v.chunkPaths, diskFiles := ∅, tempDirPresent := false,
    connOpen := false }

/-- Claim C8: when every staged file on disk is recorded in `chunk_paths`
(the invariant `_download_chunks` establishes), `close()` succeeds, removes
all staged files and the temporary directory, and a second `close()` on the
resulting state also succeeds, removes zero files, and leaves the state
unchanged — closing twice never raises and removes staged files at most
once. -/
theorem close_idempotent_c8 (v : ViewState)
    (h : ∀ x ∈ v.diskFiles, x ∈ v.chunkPaths) :
    ∃ k, closeView v = Except.ok (closedState v, k) ∧
      closeView (closedState v) = Except.ok (closedState v, 0) := by
  have h1 : (v.chunkPaths.foldl removeStep (v.diskFiles, 0)).1 = ∅ :=
    foldl_removeStep_empty v.chunkPaths v.diskFiles 0 h
  refine ⟨(v.chunkPaths.foldl removeStep (v.diskFiles, 0)).2, ?_, ?_⟩
  · unfold closeView closedState
    rw [if_neg (by
      rintro ⟨-, hne⟩
      exact hne h1)]
    rw [show v.chunkPaths.foldl removeStep (v.diskFiles, 0) =
        ((v.chunkPaths.foldl removeStep (v.diskFiles, 0)).1,
         (v.chunkPaths.foldl removeStep (v.diskFiles, 0)).2) from rfl, h1]
  · simp only [closeView, closedState]
    rw [foldl_removeStep_of_empty]
    simp

/-- Witness for C8 at a view with staged chunks 0 and 1. -/
theorem close_idempotent_c8_witness :
    (∀ x ∈ ({0, 1} : Finset ℕ), x ∈ [0, 1]) ∧
    (∃ k, closeView ⟨[0, 1], {0, 1}, true, true⟩ =
        Except.ok (closedState ⟨[0, 1], {0, 1}, true, true⟩, k) ∧
      closeView (closedState ⟨[0, 1], {0, 1}, true, true⟩) =
        Except.ok (closedState ⟨[0, 1], {0, 1}, true, true⟩, 0)) :=
  ⟨by decide, close_idempotent_c8 ⟨[0, 1], {0, 1}, true, true⟩ (by decide)⟩

/-- Character-list version of the Python test whether a string begins with a
pattern, the primitive both the substring test and the replacement scan use. -/
def startsWith : List Char → List Char → Bool
  | [], _ => true
  | _ :: _, [] => false
  | p :: ps, c :: cs => p == c && startsWith ps cs

/-- Character-list version of the Python substring test, as in the check
at src/test_duckdb_read.py line 139. -/
def containsSub (pat : List Char) : List Char → Bool
  | [] => startsWith pat []
  | c :: rest => startsWith pat (c :: rest) || containsSub pat rest

/-- Left-to-right non-overlapping literal substring replacement, the
semantics of the Python string replace call at
src/test_duckdb_read.py line 140. -/
def replaceList (pat rep : List Char) : List Char → List Char
  | [] => []
  | c :: rest =>
    if startsWith pat (c :: rest) then
      rep ++ replaceList pat rep (rest.drop (pat.length - 1))
    else c :: replaceList pat rep rest
termination_by s => s.length
decreasing_by
  · simp only [List.length_drop, List.length_cons]
    omega
  · simp only [List.length_cons]
    omega

/-- Unfolding equation of the replacement scan on the empty string. -/
lemma replaceList_nil (pat rep : List Char) : replaceList pat rep [] = [] := by
  simp [replaceList]

/-- Unfolding equation of the replacement scan on a nonempty string. -/
lemma replaceList_cons (pat rep : List Char) (c : Char) (rest : List Char) :
    replaceList pat rep (c :: rest) =
      if startsWith pat (c :: rest) then
        rep ++ replaceList pat rep (rest.drop (pat.length - 1))
      else c :: replaceList pat rep rest := by
  rw [replaceList]

/-- Matching a pattern only inspects the first `pat.length` characters. -/
lemma startsWith_append_of_le (pat u w : List Char) (h : pat.length ≤ u.length) :
    startsWith pat (u ++ w) = startsWith pat u := by
  induction pat generalizing u with
  | nil => simp [startsWith]
  | cons p ps ih =>
    cases u with
    | nil => simp at h
    | cons c u' =>
      simp only [List.cons_append, startsWith, List.append_eq]
      rw [ih u' (by simpa using h)]

/-- A pattern matches at the start of itself followed by anything. -/
lemma startsWith_self_append (pat b : List Char) : startsWith pat (pat ++ b) = true := by
  induction pat with
  | nil => simp [startsWith]
  | cons p ps ih => simp [startsWith, ih]

/-- Splitting a failed containment test on a nonempty string. -/
lemma containsSub_false_head (pat : List Char) (c : Char) (rest : List Char)
    (h : containsSub pat (c :: rest) = false) :
    startsWith pat (c :: rest) = false ∧ containsSub pat rest = false := by
  simpa [containsSub, Bool.or_eq_false_iff] using h

/-- On a string with no occurrence of the pattern the scan is the identity. -/
lemma replaceList_of_not_contains (pat rep s : List Char)
    (h : containsSub pat s = false) : replaceList pat rep s = s := by
  induction s with
  | nil => exact replaceList_nil pat rep
  | cons c rest ih =>
    obtain ⟨h1, h2⟩ := containsSub_false_head pat c rest h
    rw [replaceList_cons, h1]
    simp [ih h2]

/-- The scan fires at an occurrence sitting at the start of the string. -/
lemma replaceList_self_append (pat rep b : List Char) (hpat : pat ≠ []) :
    replaceList pat rep (pat ++ b) = rep ++ replaceList pat rep b := by
  cases pat with
  | nil => exact absurd rfl hpat
  | cons p ps =>
    have hsw : startsWith (p :: ps) (p :: (ps ++ b)) = true := by
      simpa using startsWith_self_append (p :: ps) b
    rw [List.cons_append, replaceList_cons, hsw]
    simp only [if_true, List.length_cons, Nat.add_sub_cancel]
    rw [List.drop_left]

/-- A match cannot begin at a position where even the pattern-length window
ending inside the pattern occurrence fails to match. -/
lemma startsWith_straddle (pat : List Char) (hpat : pat ≠ []) (c : Char)
    (a' b : List Char)
    (h : startsWith pat (c :: (a' ++ pat.take (pat.length - 1))) = false) :
    startsWith pat (c :: (a' ++ (pat ++ b))) = false := by
  have hsplit : c :: (a' ++ (pat ++ b)) =
      (c :: (a' ++ pat.take (pat.length - 1))) ++ (pat.drop (pat.length - 1) ++ b) := by
    simp only [List.cons_append, List.append_assoc, ← List.append_assoc (pat.take _),
      List.take_append_drop]
  rw [hsplit, startsWith_append_of_le]
  · exact h
  · simp only [List.length_cons, List.length_append, List.length_take]
    have hp : 1 ≤ pat.length := List.length_pos.mpr hpat
    omega

/-- The scan replaces the occurrence after a straddle-free preamble and runs
on as the same scan on the tail. -/
lemma replaceList_at_occurrence (pat rep a b : List Char) (hpat : pat ≠ [])
    (h : containsSub pat (a ++ pat.take (pat.length - 1)) = false) :
    replaceList pat rep (a ++ (pat ++ b)) = a ++ (rep ++ replaceList pat rep b) := by
  induction a with
  | nil => simpa using replaceList_self_append pat rep b hpat
  | cons c a' ih =>
    rw [List.cons_append] at h
    obtain ⟨h1, h2⟩ := containsSub_false_head pat c _ h
    rw [List.cons_append, replaceList_cons, startsWith_straddle pat hpat c a' b h1]
    simp [ih h2]

/-- Any string with the pattern in the middle tests as containing it. -/
lemma containsSub_append_mid (pat a b : List Char) (hpat : pat ≠ []) :
    containsSub pat (a ++ (pat ++ b)) = true := by
  induction a with
  | nil =>
    cases pat with
    | nil => exact absurd rfl hpat
    | cons p ps =>
      have hsw : startsWith (p :: ps) (p :: (ps ++ b)) = true := by
        simpa using startsWith_self_append (p :: ps) b
      simp [containsSub, hsw]
  | cons c a' ih =>
    simp [containsSub, ih]

/-- Placeholder table name substituted in caller-supplied SQL
(src/test_duckdb_read.py line 139). -/
def placeholderText : List Char := "FROM data_table".toList

/-- Replacement text: reference to the registered view
(src/test_duckdb_read.py line 140). -/
def viewRefText (viewName : List Char) : List Char := "FROM ".toList ++ viewName

/-- Embedding of the SQL rewrite step of `B2DuckDBConnector.execute_query`
(src/test_duckdb_read.py lines 138-140): when the SQL contains the
placeholder, every occurrence is replaced by the view reference, by literal
substring substitution; otherwise the SQL is passed through unchanged. -/
def rewriteQuery (viewName sql : List Char) : List Char :=
  if containsSub placeholderText sql then
    replaceList placeholderText (viewRefText viewName) sql
  else sql

/-- Claim C9: the rewrite of caller-supplied SQL is literal substring
substitution only — SQL with no exact occurrence of the placeholder text
passes through unchanged, and at an occurrence of the placeholder (after a
straddle-free preamble) the rewrite yields the preamble, then the view
reference, then the same scan over the rest of the SQL; no SQL parsing is
involved at any point. -/
theorem query_rewrite_c9 (view sql a b : List Char) :
    (containsSub placeholderText sql = false → rewriteQuery view sql = sql) ∧
    (containsSub placeholderText
        (a ++ placeholderText.take (placeholderText.length - 1)) = false →
      rewriteQuery view (a ++ (placeholderText ++ b)) =
        a ++ (viewRefText view ++ replaceList placeholderText (viewRefText view) b)) := by
  have hpat : placeholderText ≠ [] := by decide
  constructor
  · intro h
    unfold rewriteQuery
    rw [h]
    simp
  · intro h
    unfold rewriteQuery
    rw [containsSub_append_mid placeholderText a b hpat]
    simp only [if_true]
    exact replaceList_at_occurrence placeholderText (viewRefText view) a b hpat h

/-- Witness for C9: a query without the placeholder passes through; a query
of the form preamble-placeholder-tail is rewritten at the placeholder. -/
theorem query_rewrite_c9_witness :
    (containsSub placeholderText ("SELECT 1".toList) = false ∧
      rewriteQuery ("b2_data".toList) ("SELECT 1".toList) = "SELECT 1".toList) ∧
    (containsSub placeholderText
        ("SELECT * ".toList ++ placeholderText.take (placeholderText.length - 1)) = false ∧
      rewriteQuery ("b2_data".toList)
          ("SELECT * ".toList ++ (placeholderText ++ " LIMIT 5".toList)) =
        "SELECT * ".toList ++ (viewRefText ("b2_data".toList) ++
          replaceList placeholderText (viewRefText ("b2_data".toList)) (" LIMIT 5".toList))) :=
  ⟨⟨by decide,
      (query_rewrite_c9 ("b2_data".toList) ("SELECT 1".toList) [] []).1 (by decide)⟩,
    ⟨by decide,
      (query_rewrite_c9 ("b2_data".toList) ("SELECT 1".toList) ("SELECT * ".toList)
          (" LIMIT 5".toList)).2 (by decide)⟩⟩

end DataPlatform
